import Mathlib

/-!
Verification of the optimistic mutation protocol and draft lifecycle of the
Expensify client excerpt: the mutation descriptors of src/libs/actions/Card.ts,
the message-edit draft lifecycle of
src/pages/home/report/ReportActionItemMessageEdit.js, and the temporary
transaction copy of EditRequestDistancePage.

The Local Store (Onyx) and the Mutation Dispatcher (API.write, the Command
Queue) live outside the supplied sources; their behaviour is modelled from the
specification. The mutation descriptors, the draft handlers and the page
component are translated from the sources.
-/

namespace Expensify

/-- A JSON-serialisable value, as stored in the Local Store. -/
inductive JVal : Type where
  | null : JVal
  | bool : Bool → JVal
  | num : Int → JVal
  | str : String → JVal
  | arr : List JVal → JVal
  | obj : List (String × JVal) → JVal

mutual

/-- Modelled from the spec: the deep-merge of the Local Store contract
(section 4.1 of the spec; the store itself, react-native-onyx, is external to
the sources). Mapping keys are unioned, arrays replaced wholesale, scalars
overwritten; a non-mapping new value replaces the old value wholesale. -/
def mergeJ : JVal → JVal → JVal
  | JVal.obj oldFields, JVal.obj newFields => JVal.obj (mergeFields oldFields newFields)
  | _, new => new
termination_by _ new => (sizeOf new, 1)

/-- Fold the new fields into the accumulated fields, left to right. -/
def mergeFields : List (String × JVal) → List (String × JVal) → List (String × JVal)
  | acc, [] => acc
  | acc, (k, v) :: rest => mergeFields (setField acc k v) rest
termination_by _ l => (sizeOf l, 0)

/-- Set one field: deep-merge into the first existing entry for the key,
or append a fresh entry at the end. -/
def setField : List (String × JVal) → String → JVal → List (String × JVal)
  | [], k, v => [(k, v)]
  | (k', v') :: rest, k, v =>
    if k' = k then (k', mergeJ v' v) :: rest else (k', v') :: setField rest k v
termination_by l _ v => (sizeOf v, 2 + sizeOf l)

end

/-- Look a key up in an object field list (first match). -/
def lookupField : List (String × JVal) → String → Option JVal
  | [], _ => none
  | (k', v') :: rest, k => if k' = k then some v' else lookupField rest k

/-- Whether an object field list holds an entry for the key. -/
def hasKey : List (String × JVal) → String → Bool
  | [], _ => false
  | (kh, _) :: rest, k => kh = k || hasKey rest k

mutual

/-- Well-formed JSON value: every object has pairwise-distinct keys and
well-formed field values. Every value literal in the sources is well formed. -/
def wfJ : JVal → Bool
  | JVal.obj l => wfFields l
  | _ => true
termination_by v => sizeOf v

/-- Well-formed object field list: distinct keys, well-formed values. -/
def wfFields : List (String × JVal) → Bool
  | [] => true
  | (k, v) :: rest => !(hasKey rest k) && wfJ v && wfFields rest
termination_by l => sizeOf l

end

/-- Read a field of a JSON value, as a JS property access would. -/
def getObjField (v : JVal) (k : String) : Option JVal :=
  match v with
  | JVal.obj l => lookupField l k
  | _ => none

/-- The Local Store: a mapping from string keys to JSON values; keys never
written hold JVal.null (all reads tolerate an absent value). -/
def Store : Type := String → JVal

/-- The two Onyx write methods used by the sources. -/
inductive OnyxMethod : Type where
  | merge : OnyxMethod
  | set : OnyxMethod
deriving DecidableEq

/-- One store patch of a mutation, as passed to API.write. -/
structure OnyxUpdate : Type where
  onyxMethod : OnyxMethod
  key : String
  value : JVal

/-- Modelled from the spec: applying one patch to the Local Store (merge
deep-merges at the key, set replaces wholesale). -/
def applyUpdate (s : Store) (u : OnyxUpdate) : Store :=
  fun k =>
    if k = u.key then
      match u.onyxMethod with
      | OnyxMethod.merge => mergeJ (s k) u.value
      | OnyxMethod.set => u.value
    else s k

/-- Applying a batch of patches in call order. -/
def applyUpdates (s : Store) (us : List OnyxUpdate) : Store :=
  us.foldl applyUpdate s

/-!
Store key constants. The ONYXKEYS module is not among the supplied sources;
only the distinctness of the three keys used by Card.ts matters below, and the
keys are three distinct constants there.
-/

/-- ONYXKEYS.FORMS.REPORT_VIRTUAL_CARD_FRAUD. -/
def ONYXKEYS_FORMS_REPORT_VIRTUAL_CARD_FRAUD : String := "reportVirtualCardFraudForm"

/-- ONYXKEYS.FORMS.REPORT_PHYSICAL_CARD_FORM. -/
def ONYXKEYS_FORMS_REPORT_PHYSICAL_CARD_FORM : String := "reportPhysicalCardForm"

/-- ONYXKEYS.CARD_LIST. -/
def ONYXKEYS_CARD_LIST : String := "cardList"

/-- The argument bundle of one API.write call: the command name, its
parameters, and the three patch sets. -/
structure WriteRequest : Type where
  name : String
  params : List (String × JVal)
  optimisticData : List OnyxUpdate
  successData : List OnyxUpdate
  failureData : List OnyxUpdate

/-- From src/libs/actions/Card.ts, reportVirtualExpensifyCardFraud: the
API.write request it dispatches for a given cardID. -/
def reportVirtualExpensifyCardFraud (cardID : Int) : WriteRequest where
  name := "ReportVirtualExpensifyCardFraud"
  params := [("cardID", JVal.num cardID)]
  optimisticData :=
    [{ onyxMethod := OnyxMethod.merge,
       key := ONYXKEYS_FORMS_REPORT_VIRTUAL_CARD_FRAUD,
       value := JVal.obj [("isLoading", JVal.bool true)] }]
  successData :=
    [{ onyxMethod := OnyxMethod.merge,
       key := ONYXKEYS_FORMS_REPORT_VIRTUAL_CARD_FRAUD,
       value := JVal.obj [("isLoading", JVal.bool false)] }]
  failureData :=
    [{ onyxMethod := OnyxMethod.merge,
       key := ONYXKEYS_FORMS_REPORT_VIRTUAL_CARD_FRAUD,
       value := JVal.obj [("isLoading", JVal.bool false)] }]

/-- From src/libs/actions/Card.ts, requestReplacementExpensifyCard: the
API.write request it dispatches for a given cardId and reason. -/
def requestReplacementExpensifyCard (cardId : Int) (reason : String) : WriteRequest where
  name := "RequestReplacementExpensifyCard"
  params := [("cardId", JVal.num cardId), ("reason", JVal.str reason)]
  optimisticData :=
    [{ onyxMethod := OnyxMethod.merge,
       key := ONYXKEYS_FORMS_REPORT_PHYSICAL_CARD_FORM,
       value := JVal.obj [("isLoading", JVal.bool true), ("errors", JVal.null)] }]
  successData :=
    [{ onyxMethod := OnyxMethod.merge,
       key := ONYXKEYS_FORMS_REPORT_PHYSICAL_CARD_FORM,
       value := JVal.obj [("isLoading", JVal.bool false)] }]
  failureData :=
    [{ onyxMethod := OnyxMethod.merge,
       key := ONYXKEYS_FORMS_REPORT_PHYSICAL_CARD_FORM,
       value := JVal.obj [("isLoading", JVal.bool false)] }]

/-- From src/libs/actions/Card.ts, activatePhysicalExpensifyCard: the
API.write request it dispatches. The computed JS property name for the card
entry is the decimal string of the cardID. -/
def activatePhysicalExpensifyCard (cardLastFourDigits : String) (cardID : Int) : WriteRequest where
  name := "ActivatePhysicalExpensifyCard"
  params := [("cardLastFourDigits", JVal.str cardLastFourDigits), ("cardID", JVal.num cardID)]
  optimisticData :=
    [{ onyxMethod := OnyxMethod.merge,
       key := ONYXKEYS_CARD_LIST,
       value := JVal.obj
         [(toString cardID, JVal.obj [("errors", JVal.null), ("isLoading", JVal.bool true)])] }]
  successData :=
    [{ onyxMethod := OnyxMethod.merge,
       key := ONYXKEYS_CARD_LIST,
       value := JVal.obj
         [(toString cardID, JVal.obj [("isLoading", JVal.bool false)])] }]
  failureData :=
    [{ onyxMethod := OnyxMethod.merge,
       key := ONYXKEYS_CARD_LIST,
       value := JVal.obj
         [(toString cardID, JVal.obj [("isLoading", JVal.bool false)])] }]

/-!
The Mutation Dispatcher. API.write and the Command Queue are not among the
supplied sources; their behaviour is modelled from the spec (section 4.2).
-/

/-- The eventual outcome the Command Queue reports for a dispatched mutation. -/
inductive Outcome : Type where
  | success : Outcome
  | failure : Outcome
deriving DecidableEq

/-- One observable step of a dispatched mutation. -/
inductive DispatchEvent : Type where
  /-- A store patch is applied to the Local Store. -/
  | applyPatch : OnyxUpdate → DispatchEvent
  /-- The command and its parameters are handed to the Command Queue
  (the first network activity of the mutation). -/
  | enqueue : String → List (String × JVal) → DispatchEvent

/-- Whether an event is the network hand-off. -/
def DispatchEvent.isEnqueue : DispatchEvent → Bool
  | DispatchEvent.enqueue _ _ => true
  | _ => false

/-- Modelled from the spec: the ordered observable behaviour of one API.write
call whose Command Queue resolution is the given outcome. The optimisticData
patches are applied synchronously, then the command is enqueued, then the
patch set selected by the outcome is applied. -/
def dispatchTrace (req : WriteRequest) (o : Outcome) : List DispatchEvent :=
  req.optimisticData.map DispatchEvent.applyPatch
    ++ [DispatchEvent.enqueue req.name req.params]
    ++ (match o with
        | Outcome.success => req.successData
        | Outcome.failure => req.failureData).map DispatchEvent.applyPatch

/-- The store patches applied along a slice of a dispatch trace. -/
def appliedPatches (t : List DispatchEvent) : List OnyxUpdate :=
  t.filterMap fun e =>
    match e with
    | DispatchEvent.applyPatch u => some u
    | _ => none

/-- The events of a trace before the first network hand-off. -/
def preNetworkEvents (t : List DispatchEvent) : List DispatchEvent :=
  t.takeWhile fun e => !e.isEnqueue

/-- The events of a trace strictly after the first network hand-off. -/
def postNetworkEvents (t : List DispatchEvent) : List DispatchEvent :=
  (t.dropWhile fun e => !e.isEnqueue).drop 1

/-!
revealVirtualCardDetails, from src/libs/actions/Card.ts. CONST.JSON_CODE and
Localize are not among the supplied sources; the success code and the
localized failure message are single constants whose exact contents the
claims do not depend on.
-/

/-- CONST.JSON_CODE.SUCCESS. -/
def CONST_JSON_CODE_SUCCESS : Int := 200

/-- Localize.translateLocal applied to the cardPage.cardDetailsLoadingFailure
translation key. -/
def cardDetailsLoadingFailureMsg : String := "cardDetailsLoadingFailure"

/-- The shape of an API response as far as revealVirtualCardDetails reads it. -/
structure ApiResponse : Type where
  jsonCode : Int
  payload : String
deriving DecidableEq

/-- How the makeRequestWithSideEffects promise settles: resolved with a
possibly-absent response, or rejected by a transport error. -/
inductive TransportResult : Type where
  | resolved : Option ApiResponse → TransportResult
  | rejected : TransportResult
deriving DecidableEq

/-- From src/libs/actions/Card.ts, revealVirtualCardDetails: how the returned
promise settles for each way the underlying request can settle, paired with
the list of Local Store patches the function issues (it issues none: the
function deliberately does not persist card details). -/
def revealVirtualCardDetails (r : TransportResult) :
    Except String ApiResponse × List OnyxUpdate :=
  match r with
  | TransportResult.rejected => (Except.error cardDetailsLoadingFailureMsg, [])
  | TransportResult.resolved none => (Except.error cardDetailsLoadingFailureMsg, [])
  | TransportResult.resolved (some response) =>
    if response.jsonCode ≠ CONST_JSON_CODE_SUCCESS then
      (Except.error cardDetailsLoadingFailureMsg, [])
    else (Except.ok response, [])

/-!
The message-edit draft lifecycle, from
src/pages/home/report/ReportActionItemMessageEdit.js. The handlers are
embedded as pure functions from the component context and its current draft
text to the list of external effects they perform, in order. Local React
state updates (setDraft, setSelection, setIsFocused) stay inside the
component and are not external effects. ReportUtils.getCommentLength and
EmojiUtils.replaceEmojis are external to the supplied sources and enter the
context as function parameters.
-/

/-- CONST.MAX_COMMENT_LENGTH (CONST.ts is not among the supplied sources; the
claims only need it to be a fixed bound). -/
def CONST_MAX_COMMENT_LENGTH : Nat := 60000

/-- The result shape of EmojiUtils.replaceEmojis. -/
structure EmojiReplaceResult : Type where
  text : String
  emojis : List String

/-- The props and external helpers a mounted edit component closes over. -/
structure MessageEditContext : Type where
  reportID : String
  reportActionID : String
  parentReportActionID : String
  parentReportID : String
  /-- props.action.message[0].html. -/
  actionHtml : String
  /-- Position index of the report action in the report list. -/
  index : Nat
  /-- EmojiUtils.replaceEmojis at the preferred skin tone. -/
  replaceEmojis : String → EmojiReplaceResult
  /-- ReportUtils.getCommentLength. -/
  getCommentLength : String → Nat

/-- One external effect of an edit-component handler, in the order the
handler performs it. -/
inductive EditEffect : Type where
  /-- debouncedSaveDraft.cancel(): drop any pending debounced draft write. -/
  | cancelDebouncedSaveDraft : EditEffect
  /-- debouncedSaveDraft(value): schedule a debounced draft write. -/
  | callDebouncedSaveDraft : String → EditEffect
  /-- User.updateFrequentlyUsedEmojis. -/
  | updateFrequentlyUsedEmojis : List String → EditEffect
  /-- Report.saveReportActionDraft: an immediate draft write. -/
  | saveReportActionDraft : String → String → String → EditEffect
  /-- ComposerActions.setShouldShowComposeInput. -/
  | setShouldShowComposeInput : Bool → EditEffect
  /-- ReportActionComposeFocusManager.focus(). -/
  | focusMainComposer : EditEffect
  /-- The keyboardDidHide scroll-to-index listener registered when index is 0. -/
  | scheduleScrollAfterKeyboardHide : EditEffect
  /-- ReportActionContextMenu.showDeleteModal for the action. -/
  | showDeleteModal : String → String → EditEffect
  /-- Report.editReportComment: the named edit mutation. -/
  | editReportComment : String → String → String → EditEffect
deriving DecidableEq

/-- Whether an effect dispatches the edit mutation to the server. -/
def EditEffect.isApiMutation : EditEffect → Bool
  | EditEffect.editReportComment _ _ _ => true
  | _ => false

/-- Whether an effect writes the draft store (directly or via debounce). -/
def EditEffect.isDraftWrite : EditEffect → Bool
  | EditEffect.saveReportActionDraft _ _ _ => true
  | EditEffect.callDebouncedSaveDraft _ => true
  | _ => false

/-- The values handed to the debounced draft persistence by a handler run. -/
def debouncedWrites (effects : List EditEffect) : List String :=
  effects.filterMap fun e =>
    match e with
    | EditEffect.callDebouncedSaveDraft v => some v
    | _ => none

/-- The whitespace trimming of the JS string trim method, over the character
list (structural, unlike the builtin trim, so closed instances evaluate). -/
def jsTrim (s : String) : String :=
  String.mk (((s.data.dropWhile Char.isWhitespace).reverse.dropWhile Char.isWhitespace).reverse)

/-- The HTML escaping of the underscore escape helper applied to the draft
before saving; characters are matched by code point (38 is the ampersand,
60 and 62 the angle brackets, 34 the double quote, 39 the apostrophe,
96 the backtick). -/
def escapeHtml (s : String) : String :=
  String.join (s.data.map fun c =>
    if c.toNat = 38 then "&amp;"
    else if c.toNat = 60 then "&lt;"
    else if c.toNat = 62 then "&gt;"
    else if c.toNat = 34 then "&quot;"
    else if c.toNat = 39 then "&#x27;"
    else if c.toNat = 96 then "&#x60;"
    else String.singleton c)

/-- The debounce interval of debouncedSaveDraft, in milliseconds. -/
def debouncedSaveDraftWait : Nat := 1000

/-- From the source, deleteDraft: cancel the pending debounced write, clear
the draft by saving the empty string, show the main composer again, restore
its focus, and (for the first action) schedule a scroll once the keyboard
hides. -/
def deleteDraft (ctx : MessageEditContext) : List EditEffect :=
  [EditEffect.cancelDebouncedSaveDraft,
   EditEffect.saveReportActionDraft ctx.reportID ctx.reportActionID "",
   EditEffect.setShouldShowComposeInput true,
   EditEffect.focusMainComposer]
    ++ (if ctx.index = 0 then [EditEffect.scheduleScrollAfterKeyboardHide] else [])

/-- The report the edit mutation targets: the parent report when the edited
action is the first message of a thread. -/
def publishTargetReportID (ctx : MessageEditContext) : String :=
  if ctx.parentReportActionID = ctx.reportActionID then ctx.parentReportID else ctx.reportID

/-- From the source, publishDraft: do nothing when the draft exceeds the
maximum comment length; otherwise cancel the debounced write, then either
prompt for deletion (empty trimmed draft) or dispatch the edit mutation and
clear the draft. -/
def publishDraft (ctx : MessageEditContext) (draft : String) : List EditEffect :=
  if ctx.getCommentLength draft > CONST_MAX_COMMENT_LENGTH then []
  else
    let trimmedNewDraft := jsTrim draft
    if trimmedNewDraft = "" then
      [EditEffect.cancelDebouncedSaveDraft,
       EditEffect.showDeleteModal (publishTargetReportID ctx) ctx.reportActionID]
    else
      [EditEffect.cancelDebouncedSaveDraft,
       EditEffect.editReportComment (publishTargetReportID ctx) ctx.reportActionID trimmedNewDraft]
        ++ deleteDraft ctx

/-- From the source, updateDraft: replace emojis in the typed text, record
freshly used emojis, and hand the draft to the debounced persistence - the
escaped new draft when it is non-empty after trimming, the original message
HTML otherwise (the component only renders for a non-empty saved draft). -/
def updateDraft (ctx : MessageEditContext) (newDraftInput : String) : List EditEffect :=
  let r := ctx.replaceEmojis newDraftInput
  (if r.emojis = [] then [] else [EditEffect.updateFrequentlyUsedEmojis r.emojis])
    ++ (if 0 < (jsTrim r.text).length then
          [EditEffect.callDebouncedSaveDraft (escapeHtml r.text)]
        else
          [EditEffect.callDebouncedSaveDraft ctx.actionHtml])

/-- Modelled from the spec: the trailing-edge debounce of the underscore
library (external to the supplied sources), driven by a timeline of calls at
millisecond timestamps. Each call replaces the pending invocation and
reschedules it one wait after the call; a pending invocation whose time has
arrived before the next call is delivered. Returns the delivered
(time, argument) writes in order. -/
def debounceRun (wait : Nat) : List (Nat × String) → Option (Nat × String) → List (Nat × String)
  | [], pending => pending.toList
  | (t, a) :: rest, pending =>
    match pending with
    | some (ft, pa) =>
      if ft ≤ t then (ft, pa) :: debounceRun wait rest (some (t + wait, a))
      else debounceRun wait rest (some (t + wait, a))
    | none => debounceRun wait rest (some (t + wait, a))

/-- The state an edit-component handler run acts on: the draft store keyed by
report and action, the permanent report comments, the shared composer
affordance, the pending debounced draft write, and the frequently used emoji
list. Modelled from the spec where the stores are external (Report actions,
ComposerActions and the focus manager are not among the supplied sources). -/
structure DraftStoreState : Type where
  drafts : String → String → String
  reportComments : String → String → String
  composeInputVisible : Bool
  mainComposerFocused : Bool
  pendingDraftWrite : Option String
  frequentlyUsedEmojis : List String
  deleteModalShownFor : Option (String × String)

/-- Modelled from the spec: the state transition of one effect. -/
def applyEditEffect (st : DraftStoreState) : EditEffect → DraftStoreState
  | EditEffect.cancelDebouncedSaveDraft => { st with pendingDraftWrite := none }
  | EditEffect.callDebouncedSaveDraft v => { st with pendingDraftWrite := some v }
  | EditEffect.updateFrequentlyUsedEmojis es => { st with frequentlyUsedEmojis := es }
  | EditEffect.saveReportActionDraft rid aid v =>
    { st with drafts := fun r a => if r = rid then (if a = aid then v else st.drafts r a) else st.drafts r a }
  | EditEffect.setShouldShowComposeInput b => { st with composeInputVisible := b }
  | EditEffect.focusMainComposer => { st with mainComposerFocused := true }
  | EditEffect.scheduleScrollAfterKeyboardHide => st
  | EditEffect.showDeleteModal rid aid => { st with deleteModalShownFor := some (rid, aid) }
  | EditEffect.editReportComment rid aid txt =>
    { st with reportComments := fun r a => if r = rid then (if a = aid then txt else st.reportComments r a) else st.reportComments r a }

/-- Run a handler effect list, in order. -/
def applyEditEffects (st : DraftStoreState) (effects : List EditEffect) : DraftStoreState :=
  effects.foldl applyEditEffect st

/-!
The temporary transaction copy of EditRequestDistancePage
(src/unnamed/part_001). Transactions live in an Onyx collection keyed by
transactionID; TransactionUtils.createTemporaryTransaction and
removeTemporaryTransaction are not among the supplied sources.
-/

/-- The transaction collection: payload by transactionID, none when absent. -/
def TxStore : Type := String → Option JVal

/-- Modelled from the spec: TransactionUtils.createTemporaryTransaction gives
the temporary copy its own fresh transactionID (the spec makes the draft a
transient copy under its own owner key, distinct from the permanent
entity). -/
def temporaryTransactionID (originalID : String) : String :=
  "temp_" ++ originalID

/-- One edit made through the DistanceRequest child: it is wired to the
temporary transactionID, so it writes that collection entry. -/
def writeTransaction (st : TxStore) (id : String) (payload : JVal) : TxStore :=
  fun k => if k = id then some payload else st k

/-- Modelled from the spec: TransactionUtils.removeTemporaryTransaction
deletes the temporary collection entry. -/
def removeTemporaryTransaction (st : TxStore) (id : String) : TxStore :=
  fun k => if k = id then none else st k

/-- From src/unnamed/part_001, EditRequestDistancePage: all edits of a
session go to the temporary copy created on mount. -/
def runDistanceEditSession (st : TxStore) (originalID : String) (edits : List JVal) : TxStore :=
  edits.foldl (fun acc p => writeTransaction acc (temporaryTransactionID originalID) p) st

/-- From src/unnamed/part_001: the unmount cleanup removes the temporary
transaction, for both the save and the cancel path. -/
def unmountDistanceEditPage (st : TxStore) (originalID : String) : TxStore :=
  removeTemporaryTransaction st (temporaryTransactionID originalID)

/-!
Concrete sample data used by witnesses and counterexamples.
-/

/-- A small edit-component context: identity emoji replacement and the plain
character count as comment length. -/
def sampleEditContext : MessageEditContext where
  reportID := "report1"
  reportActionID := "action1"
  parentReportActionID := "parentAction"
  parentReportID := "parentReport"
  actionHtml := "hello"
  index := 0
  replaceEmojis := fun s => { text := s, emojis := [] }
  getCommentLength := String.length

/-- An edit-component context whose comment-length helper always exceeds the
maximum comment length. -/
def sampleOverlongEditContext : MessageEditContext where
  reportID := "report1"
  reportActionID := "action1"
  parentReportActionID := "parentAction"
  parentReportID := "parentReport"
  actionHtml := "hello"
  index := 1
  replaceEmojis := fun s => { text := s, emojis := [] }
  getCommentLength := fun _ => CONST_MAX_COMMENT_LENGTH + 1

/-- A store whose CARD_LIST entry holds card 7 with a pending spinner. -/
def requestReplacementFailureStore : Store :=
  fun k =>
    if k = ONYXKEYS_CARD_LIST then
      JVal.obj [("7", JVal.obj [("state", JVal.num 3), ("isLoading", JVal.bool true)])]
    else JVal.null

/-!
Lemmas: deep-merge idempotence for well-formed patch values, and field
lookup facts used by the claims.
-/

theorem mergeJ_null_left (v : JVal) : mergeJ JVal.null v = v := by
  cases v <;> simp [mergeJ]

theorem mergeFields_nil_right (acc : List (String × JVal)) : mergeFields acc [] = acc := by
  simp [mergeFields]

theorem hasKey_setField (l : List (String × JVal)) (k k1 : String) (v1 : JVal) :
    hasKey (setField l k1 v1) k = (decide (k1 = k) || hasKey l k) := by
  induction l with
  | nil => simp [setField, hasKey]
  | cons p rest ih =>
    obtain ⟨a, b⟩ := p
    by_cases ha1 : a = k1
    · subst ha1
      simp [setField, hasKey]
    · simp [setField, hasKey, ha1, ih]
      cases h1 : decide (k1 = k) <;> cases h2 : decide (a = k) <;> simp_all

theorem hasKey_setField_self (l : List (String × JVal)) (k : String) (v : JVal) :
    hasKey (setField l k v) k = true := by
  simp [hasKey_setField]

theorem hasKey_false_forall {l : List (String × JVal)} {k : String}
    (h : hasKey l k = false) : ∀ p ∈ l, p.1 ≠ k := by
  induction l with
  | nil => intro p hp; cases hp
  | cons q rest ih =>
    obtain ⟨a, b⟩ := q
    simp [hasKey] at h
    intro p hp
    cases hp with
    | head => exact h.1
    | tail _ hmem => exact ih h.2 p hmem

theorem setField_swap (k k1 : String) (v v1 : JVal) (hne : k ≠ k1) :
    ∀ l : List (String × JVal), hasKey l k = true →
    setField (setField l k1 v1) k v = setField (setField l k v) k1 v1 := by
  intro l
  induction l with
  | nil => intro hk; simp [hasKey] at hk
  | cons p rest ih =>
    obtain ⟨a, b⟩ := p
    intro hk
    by_cases ha1 : a = k1
    · have hak : ¬ a = k := by rw [ha1]; exact fun h => hne h.symm
      simp [setField, ha1, hak, Ne.symm hne]
    · by_cases hak : a = k
      · simp [setField, ha1, hak, hne]
      · have hrest : hasKey rest k = true := by
          simp [hasKey, hak] at hk
          exact hk
        simp [setField, ha1, hak, ih hrest]

theorem setField_setField_same (k : String) (v : JVal)
    (hv : ∀ x, mergeJ (mergeJ x v) v = mergeJ x v) :
    ∀ l : List (String × JVal), setField (setField l k v) k v = setField l k v := by
  have hvv : mergeJ v v = v := by
    have h := hv JVal.null
    rwa [mergeJ_null_left] at h
  intro l
  induction l with
  | nil => simp [setField, hvv]
  | cons p rest ih =>
    obtain ⟨a, b⟩ := p
    by_cases hak : a = k
    · simp [setField, hak, hv]
    · simp [setField, hak, ih]

theorem mergeFields_setField_comm (k : String) (v : JVal) :
    ∀ (rest : List (String × JVal)) (l : List (String × JVal)),
    hasKey l k = true → (∀ p ∈ rest, p.1 ≠ k) →
    setField (mergeFields l rest) k v = mergeFields (setField l k v) rest := by
  intro rest
  induction rest with
  | nil => intro l _ _; simp [mergeFields]
  | cons q rest1 ih =>
    obtain ⟨k1, v1⟩ := q
    intro l hl hne
    have hk1 : k1 ≠ k := hne (k1, v1) (List.mem_cons_self _ _)
    have hne1 : ∀ p ∈ rest1, p.1 ≠ k := fun p hp => hne p (List.mem_cons_of_mem _ hp)
    have hl1 : hasKey (setField l k1 v1) k = true := by
      simp [hasKey_setField, hl]
    calc setField (mergeFields l ((k1, v1) :: rest1)) k v
        = setField (mergeFields (setField l k1 v1) rest1) k v := by simp [mergeFields]
      _ = mergeFields (setField (setField l k1 v1) k v) rest1 := ih (setField l k1 v1) hl1 hne1
      _ = mergeFields (setField (setField l k v) k1 v1) rest1 := by
            rw [setField_swap k k1 v v1 (Ne.symm hk1) l hl]
      _ = mergeFields (setField l k v) ((k1, v1) :: rest1) := by simp [mergeFields]

theorem mergeFields_cons_notin (k : String) (v : JVal) :
    ∀ (rest : List (String × JVal)) (acc : List (String × JVal)),
    (∀ p ∈ rest, p.1 ≠ k) →
    mergeFields ((k, v) :: acc) rest = (k, v) :: mergeFields acc rest := by
  intro rest
  induction rest with
  | nil => intro acc _; simp [mergeFields]
  | cons q rest1 ih =>
    obtain ⟨k1, v1⟩ := q
    intro acc hne
    have hk1 : k1 ≠ k := hne (k1, v1) (List.mem_cons_self _ _)
    have hne1 : ∀ p ∈ rest1, p.1 ≠ k := fun p hp => hne p (List.mem_cons_of_mem _ hp)
    have hstep : setField ((k, v) :: acc) k1 v1 = (k, v) :: setField acc k1 v1 := by
      simp [setField, Ne.symm hk1]
    calc mergeFields ((k, v) :: acc) ((k1, v1) :: rest1)
        = mergeFields (setField ((k, v) :: acc) k1 v1) rest1 := by simp [mergeFields]
      _ = mergeFields ((k, v) :: setField acc k1 v1) rest1 := by rw [hstep]
      _ = (k, v) :: mergeFields (setField acc k1 v1) rest1 := ih (setField acc k1 v1) hne1
      _ = (k, v) :: mergeFields acc ((k1, v1) :: rest1) := by simp [mergeFields]

theorem wfFields_split {k : String} {v : JVal} {rest : List (String × JVal)}
    (h : wfFields ((k, v) :: rest) = true) :
    hasKey rest k = false ∧ wfJ v = true ∧ wfFields rest = true := by
  simp [wfFields] at h
  exact ⟨h.1.1, h.1.2, h.2⟩

theorem wfFields_forall :
    ∀ l : List (String × JVal), wfFields l = true → ∀ p ∈ l, wfJ p.2 = true := by
  intro l
  induction l with
  | nil => intro _ p hp; cases hp
  | cons q rest ih =>
    obtain ⟨a, b⟩ := q
    intro hwf p hp
    obtain ⟨_, hb, hrest⟩ := wfFields_split hwf
    cases hp with
    | head => exact hb
    | tail _ hmem => exact ih hrest p hmem

theorem mergeFields_nil_left :
    ∀ nf : List (String × JVal), wfFields nf = true → mergeFields [] nf = nf := by
  intro nf
  induction nf with
  | nil => intro _; simp [mergeFields]
  | cons q rest ih =>
    obtain ⟨k, v⟩ := q
    intro hwf
    obtain ⟨hk0, _, hrest0⟩ := wfFields_split hwf
    have hne : ∀ p ∈ rest, p.1 ≠ k := hasKey_false_forall hk0
    calc mergeFields [] ((k, v) :: rest)
        = mergeFields [(k, v)] rest := by simp [mergeFields, setField]
      _ = (k, v) :: mergeFields [] rest := mergeFields_cons_notin k v rest [] hne
      _ = (k, v) :: rest := by rw [ih hrest0]

theorem mergeFields_idem :
    ∀ nf : List (String × JVal), wfFields nf = true →
    (∀ p ∈ nf, ∀ s, mergeJ (mergeJ s p.2) p.2 = mergeJ s p.2) →
    ∀ m, mergeFields (mergeFields m nf) nf = mergeFields m nf := by
  intro nf
  induction nf with
  | nil => intro _ _ m; simp [mergeFields]
  | cons q rest ih =>
    obtain ⟨k, v⟩ := q
    intro hwf hidem m
    obtain ⟨hk0, _, hrest0⟩ := wfFields_split hwf
    have hne : ∀ p ∈ rest, p.1 ≠ k := hasKey_false_forall hk0
    have hidemv : ∀ s, mergeJ (mergeJ s v) v = mergeJ s v :=
      hidem (k, v) (List.mem_cons_self _ _)
    have hidem1 : ∀ p ∈ rest, ∀ s, mergeJ (mergeJ s p.2) p.2 = mergeJ s p.2 :=
      fun p hp => hidem p (List.mem_cons_of_mem _ hp)
    have hinner : setField (mergeFields (setField m k v) rest) k v
        = mergeFields (setField m k v) rest := by
      rw [mergeFields_setField_comm k v rest (setField m k v) (hasKey_setField_self m k v) hne,
        setField_setField_same k v hidemv m]
    calc mergeFields (mergeFields m ((k, v) :: rest)) ((k, v) :: rest)
        = mergeFields (setField (mergeFields (setField m k v) rest) k v) rest := by
          simp [mergeFields]
      _ = mergeFields (mergeFields (setField m k v) rest) rest := by rw [hinner]
      _ = mergeFields (setField m k v) rest := ih hrest0 hidem1 (setField m k v)
      _ = mergeFields m ((k, v) :: rest) := by simp [mergeFields]

theorem mergeJ_idem_aux :
    ∀ (n : Nat) (v : JVal), sizeOf v ≤ n → wfJ v = true →
    ∀ s, mergeJ (mergeJ s v) v = mergeJ s v := by
  intro n
  induction n with
  | zero =>
    intro v hv
    exfalso
    cases v <;> simp_arith at hv
  | succ n ih =>
    intro v hsize hw s
    cases v with
    | obj nf =>
      have hwf : wfFields nf = true := by simpa [wfJ] using hw
      have hidem : ∀ p ∈ nf, ∀ t, mergeJ (mergeJ t p.2) p.2 = mergeJ t p.2 := by
        intro p hp t
        have h1 : sizeOf p < sizeOf nf := List.sizeOf_lt_of_mem hp
        have h2 : sizeOf p.2 ≤ n := by
          obtain ⟨a, b⟩ := p
          simp at h1 ⊢
          simp [JVal.obj.sizeOf_spec] at hsize
          omega
        have h3 : wfJ p.2 = true := wfFields_forall nf hwf p hp
        exact ih p.2 h2 h3 t
      have h0 : mergeFields [] nf = nf := mergeFields_nil_left nf hwf
      have h1 : mergeFields nf nf = nf := by
        have h2 := mergeFields_idem nf hwf hidem []
        rwa [h0] at h2
      cases s with
      | obj of =>
        have := mergeFields_idem nf hwf hidem of
        simp [mergeJ]
        exact this
      | null =>
        simp [mergeJ]
        exact h1
      | bool b =>
        simp [mergeJ]
        exact h1
      | num i =>
        simp [mergeJ]
        exact h1
      | str t =>
        simp [mergeJ]
        exact h1
      | arr xs =>
        simp [mergeJ]
        exact h1
    | null => simp [mergeJ]
    | bool b => cases s <;> simp [mergeJ]
    | num i => cases s <;> simp [mergeJ]
    | str t => cases s <;> simp [mergeJ]
    | arr xs => cases s <;> simp [mergeJ]

/-- Deep merge is idempotent in its second argument for well-formed values. -/
theorem mergeJ_idem_of_wf (v : JVal) (hw : wfJ v = true) (s : JVal) :
    mergeJ (mergeJ s v) v = mergeJ s v :=
  mergeJ_idem_aux (sizeOf v) v (Nat.le_refl _) hw s

theorem mergeJ_bool_right (old : JVal) (b : Bool) : mergeJ old (JVal.bool b) = JVal.bool b := by
  cases old <;> simp [mergeJ]

theorem lookupField_setField_self (l : List (String × JVal)) (k : String) (v : JVal) :
    lookupField (setField l k v) k
      = some (match lookupField l k with
              | some ov => mergeJ ov v
              | none => v) := by
  induction l with
  | nil => simp [setField, lookupField]
  | cons p rest ih =>
    obtain ⟨a, b⟩ := p
    by_cases hak : a = k
    · simp [setField, lookupField, hak]
    · simp [setField, lookupField, hak, ih]

/-!
Claim theorems.
-/

theorem applyUpdate_merge_idem (u : OnyxUpdate) (h : wfJ u.value = true) (s : Store) :
    applyUpdate (applyUpdate s u) u = applyUpdate s u := by
  funext k
  by_cases hk : k = u.key
  · cases hm : u.onyxMethod with
    | merge =>
      simp only [applyUpdate, hk, if_pos rfl, hm]
      exact mergeJ_idem_of_wf u.value h (s u.key)
    | set => simp [applyUpdate, hk, hm]
  · simp [applyUpdate, hk]

theorem applyUpdates_singleton_idem (u : OnyxUpdate) (h : wfJ u.value = true) (s : Store) :
    applyUpdates (applyUpdates s [u]) [u] = applyUpdates s [u] := by
  simp [applyUpdates]
  exact applyUpdate_merge_idem u h s

/-- Claim C1: for a mutation dispatched via write (shown on
reportVirtualExpensifyCardFraud), the optimisticData patches are the patches
applied before any network activity and are applied exactly once, the command
is enqueued exactly once, and the patches applied after the network hand-off
are exactly the successData when the outcome is success and exactly the
failureData when it is failure - one of the two sets, never both, never
neither. -/
theorem write_applies_optimistic_once_then_one_outcome (cardID : Int) (o : Outcome) :
    appliedPatches (preNetworkEvents (dispatchTrace (reportVirtualExpensifyCardFraud cardID) o))
        = (reportVirtualExpensifyCardFraud cardID).optimisticData
      ∧ ((dispatchTrace (reportVirtualExpensifyCardFraud cardID) o).countP
          fun e => e.isEnqueue) = 1
      ∧ ((o = Outcome.success
            ∧ appliedPatches (postNetworkEvents
                (dispatchTrace (reportVirtualExpensifyCardFraud cardID) o))
              = (reportVirtualExpensifyCardFraud cardID).successData)
          ∨ (o = Outcome.failure
            ∧ appliedPatches (postNetworkEvents
                (dispatchTrace (reportVirtualExpensifyCardFraud cardID) o))
              = (reportVirtualExpensifyCardFraud cardID).failureData)) := by
  cases o <;>
    simp [dispatchTrace, appliedPatches, preNetworkEvents, postNetworkEvents,
      reportVirtualExpensifyCardFraud, DispatchEvent.isEnqueue, List.takeWhile,
      List.dropWhile, List.countP, List.countP.go]

/-- Claim C2: the optimisticData patch sets of the Card.ts mutations are
idempotent - applying one twice in sequence to any store state yields the
same store state as applying it once. -/
theorem optimistic_patch_sets_idempotent (cardID cardId2 : Int) (lastFour reason : String)
    (s1 s2 s3 : Store) :
    applyUpdates (applyUpdates s1 (reportVirtualExpensifyCardFraud cardID).optimisticData)
        (reportVirtualExpensifyCardFraud cardID).optimisticData
      = applyUpdates s1 (reportVirtualExpensifyCardFraud cardID).optimisticData
    ∧ applyUpdates (applyUpdates s2 (requestReplacementExpensifyCard cardId2 reason).optimisticData)
        (requestReplacementExpensifyCard cardId2 reason).optimisticData
      = applyUpdates s2 (requestReplacementExpensifyCard cardId2 reason).optimisticData
    ∧ applyUpdates (applyUpdates s3 (activatePhysicalExpensifyCard lastFour cardID).optimisticData)
        (activatePhysicalExpensifyCard lastFour cardID).optimisticData
      = applyUpdates s3 (activatePhysicalExpensifyCard lastFour cardID).optimisticData := by
  refine ⟨?_, ?_, ?_⟩
  · exact applyUpdates_singleton_idem _ (by simp [wfJ, wfFields, hasKey]) s1
  · exact applyUpdates_singleton_idem _ (by simp [wfJ, wfFields, hasKey]) s2
  · exact applyUpdates_singleton_idem _ (by simp [wfJ, wfFields, hasKey]) s3

/-- Claim C4, counterexample: with card 7 pending in the CARD_LIST entry, the
failureData of requestReplacementExpensifyCard leaves the CARD_LIST entry
with isLoading still true - the claim says the entry at the CARD_LIST key
shows isLoading false. -/
theorem request_replacement_failure_leaves_card_list_loading :
    ((getObjField
        ((applyUpdates requestReplacementFailureStore
            (requestReplacementExpensifyCard 7 "stolen").failureData) ONYXKEYS_CARD_LIST)
        "7").bind
      fun v => getObjField v "isLoading") = some (JVal.bool true) := by
  simp [requestReplacementExpensifyCard, applyUpdates, applyUpdate,
    requestReplacementFailureStore, ONYXKEYS_CARD_LIST,
    ONYXKEYS_FORMS_REPORT_PHYSICAL_CARD_FORM, getObjField, lookupField]

/-- Claim C4, amended: when the network fails, the failureData patch of
requestReplacementExpensifyCard leaves the entry at the
REPORT_PHYSICAL_CARD_FORM store key with isLoading false, and leaves the
CARD_LIST entry (the card status) unchanged. -/
theorem request_replacement_failure_clears_form_loading (cardId : Int) (reason : String)
    (s : Store) :
    (applyUpdates s (requestReplacementExpensifyCard cardId reason).failureData)
        ONYXKEYS_CARD_LIST = s ONYXKEYS_CARD_LIST
      ∧ getObjField
          ((applyUpdates s (requestReplacementExpensifyCard cardId reason).failureData)
            ONYXKEYS_FORMS_REPORT_PHYSICAL_CARD_FORM) "isLoading"
        = some (JVal.bool false) := by
  constructor
  · simp [applyUpdates, applyUpdate, requestReplacementExpensifyCard,
      ONYXKEYS_CARD_LIST, ONYXKEYS_FORMS_REPORT_PHYSICAL_CARD_FORM]
  · simp only [applyUpdates, List.foldl, applyUpdate, requestReplacementExpensifyCard,
      if_pos rfl]
    cases hv : s ONYXKEYS_FORMS_REPORT_PHYSICAL_CARD_FORM with
    | obj l =>
      simp [mergeJ, mergeFields, getObjField, lookupField_setField_self]
      cases lookupField l "isLoading" <;> simp [mergeJ_bool_right, mergeJ]
    | null => simp [mergeJ, getObjField, lookupField]
    | bool b => simp [mergeJ, getObjField, lookupField]
    | num n => simp [mergeJ, getObjField, lookupField]
    | str t => simp [mergeJ, getObjField, lookupField]
    | arr xs => simp [mergeJ, getObjField, lookupField]

/-- Claim C3: committing a draft whose content is empty after trimming is a
no-op commit - the handler routes to the delete-confirmation flow, dispatches
no edit mutation, and performs no draft-store write, so the draft stays in
its editing state. -/
theorem publish_empty_draft_prompts_delete (ctx : MessageEditContext) (draft : String)
    (hlen : ¬ ctx.getCommentLength draft > CONST_MAX_COMMENT_LENGTH)
    (hempty : jsTrim draft = "") :
    publishDraft ctx draft
        = [EditEffect.cancelDebouncedSaveDraft,
           EditEffect.showDeleteModal (publishTargetReportID ctx) ctx.reportActionID]
      ∧ (∀ e ∈ publishDraft ctx draft, e.isApiMutation = false)
      ∧ (∀ e ∈ publishDraft ctx draft, e.isDraftWrite = false) := by
  have h1 : publishDraft ctx draft
      = [EditEffect.cancelDebouncedSaveDraft,
         EditEffect.showDeleteModal (publishTargetReportID ctx) ctx.reportActionID] := by
    simp [publishDraft, hlen, hempty]
  refine ⟨h1, ?_, ?_⟩ <;> rw [h1] <;> intro e he <;>
    simp only [List.mem_cons, List.not_mem_nil, or_false] at he <;>
    rcases he with rfl | rfl <;> rfl

theorem publish_empty_draft_prompts_delete_witness :
    (¬ sampleEditContext.getCommentLength "" > CONST_MAX_COMMENT_LENGTH)
      ∧ jsTrim "" = ""
      ∧ (publishDraft sampleEditContext ""
            = [EditEffect.cancelDebouncedSaveDraft,
               EditEffect.showDeleteModal (publishTargetReportID sampleEditContext)
                 sampleEditContext.reportActionID]
          ∧ (∀ e ∈ publishDraft sampleEditContext "", e.isApiMutation = false)
          ∧ (∀ e ∈ publishDraft sampleEditContext "", e.isDraftWrite = false)) :=
  ⟨by decide, by decide,
    publish_empty_draft_prompts_delete sampleEditContext "" (by decide) (by decide)⟩

/-- Claim C5: deleteDraft clears the draft at its owner key, cancels any
pending debounced draft write for good, restores the shared composer
visibility and focus, and performs no mutation - the permanent report
comments are untouched. -/
theorem delete_draft_clears_without_mutation (ctx : MessageEditContext)
    (st : DraftStoreState) :
    (applyEditEffects st (deleteDraft ctx)).drafts ctx.reportID ctx.reportActionID = ""
      ∧ (applyEditEffects st (deleteDraft ctx)).pendingDraftWrite = none
      ∧ (applyEditEffects st (deleteDraft ctx)).composeInputVisible = true
      ∧ (applyEditEffects st (deleteDraft ctx)).mainComposerFocused = true
      ∧ (applyEditEffects st (deleteDraft ctx)).reportComments = st.reportComments
      ∧ (∀ e ∈ deleteDraft ctx, e.isApiMutation = false) := by
  by_cases h : ctx.index = 0 <;>
    simp [deleteDraft, applyEditEffects, applyEditEffect, h, EditEffect.isApiMutation]

/-- Claim C6: two debounced draft saves for the same owner within one
debounce interval deliver exactly one persisted write, carrying the content
of the second call. -/
theorem debounced_two_calls_single_write (t1 t2 : Nat) (a1 a2 : String)
    (hle : t1 ≤ t2) (hlt : t2 < t1 + debouncedSaveDraftWait) :
    debounceRun debouncedSaveDraftWait [(t1, a1), (t2, a2)] none
      = [(t2 + debouncedSaveDraftWait, a2)] := by
  have hng : ¬ t1 + debouncedSaveDraftWait ≤ t2 := by omega
  have _ := hle
  simp [debounceRun, hng]

theorem debounced_two_calls_single_write_witness :
    ((0 : Nat) ≤ 500 ∧ 500 < 0 + debouncedSaveDraftWait)
      ∧ debounceRun debouncedSaveDraftWait [(0, "first"), (500, "second")] none
          = [(500 + debouncedSaveDraftWait, "second")] :=
  ⟨⟨by decide, by decide⟩,
    debounced_two_calls_single_write 0 500 "first" "second" (by decide) (by decide)⟩

/-- Claim C7: a commit attempt whose draft exceeds the maximum comment length
is blocked synchronously before anything happens - the handler performs no
effect at all: no mutation, no store patch, no cancellation. -/
theorem publish_overlong_draft_blocked (ctx : MessageEditContext) (draft : String)
    (h : ctx.getCommentLength draft > CONST_MAX_COMMENT_LENGTH) :
    publishDraft ctx draft = [] := by
  simp [publishDraft, h]

theorem publish_overlong_draft_blocked_witness :
    sampleOverlongEditContext.getCommentLength "hi" > CONST_MAX_COMMENT_LENGTH
      ∧ publishDraft sampleOverlongEditContext "hi" = [] :=
  ⟨by decide, publish_overlong_draft_blocked sampleOverlongEditContext "hi" (by decide)⟩

/-- Claim C9: when the emoji-replaced draft text is empty after trimming,
the debounced persistence receives the original message HTML, not the empty
string, so the persisted draft stays non-empty while the edit surface is
open. -/
theorem update_draft_empty_persists_original_html (ctx : MessageEditContext)
    (input : String)
    (hempty : ((jsTrim (ctx.replaceEmojis input).text)).length = 0)
    (hhtml : ctx.actionHtml ≠ "") :
    debouncedWrites (updateDraft ctx input) = [ctx.actionHtml]
      ∧ "" ∉ debouncedWrites (updateDraft ctx input) := by
  have h1 : debouncedWrites (updateDraft ctx input) = [ctx.actionHtml] := by
    by_cases he : (ctx.replaceEmojis input).emojis = [] <;>
      simp [updateDraft, debouncedWrites, hempty, he]
  refine ⟨h1, ?_⟩
  rw [h1]
  simp
  exact fun h => hhtml h.symm

theorem update_draft_empty_persists_original_html_witness :
    (jsTrim (sampleEditContext.replaceEmojis "  ").text).length = 0
      ∧ sampleEditContext.actionHtml ≠ ""
      ∧ (debouncedWrites (updateDraft sampleEditContext "  ")
            = [sampleEditContext.actionHtml]
          ∧ "" ∉ debouncedWrites (updateDraft sampleEditContext "  ")) :=
  ⟨by decide, by decide,
    update_draft_empty_persists_original_html sampleEditContext "  " (by decide) (by decide)⟩

theorem runDistanceEditSession_ne_temp (originalID k : String)
    (hk : k ≠ temporaryTransactionID originalID) :
    ∀ (edits : List JVal) (st : TxStore),
    runDistanceEditSession st originalID edits k = st k := by
  intro edits
  induction edits with
  | nil => intro st; simp [runDistanceEditSession]
  | cons p rest ih =>
    intro st
    have hstep : writeTransaction st (temporaryTransactionID originalID) p k = st k := by
      simp [writeTransaction, hk]
    calc runDistanceEditSession st originalID (p :: rest) k
        = runDistanceEditSession (writeTransaction st (temporaryTransactionID originalID) p)
            originalID rest k := by simp [runDistanceEditSession]
      _ = writeTransaction st (temporaryTransactionID originalID) p k := ih _
      _ = st k := hstep

theorem temporaryTransactionID_ne (originalID : String) :
    temporaryTransactionID originalID ≠ originalID := by
  intro h
  have hlen := congrArg String.length h
  rw [temporaryTransactionID, String.length_append] at hlen
  have h5 : "temp_".length = 5 := rfl
  omega

/-- Claim C8: in an EditRequestDistancePage session, every edit goes to the
temporary transaction copy, whose ID differs from the original transactionID,
so the original transaction entry is unchanged by any edit sequence; the
unmount cleanup (run on both save and cancel) removes the temporary copy. -/
theorem distance_edit_session_isolated (st : TxStore) (originalID : String)
    (edits : List JVal) :
    runDistanceEditSession st originalID edits originalID = st originalID
      ∧ unmountDistanceEditPage (runDistanceEditSession st originalID edits) originalID
          (temporaryTransactionID originalID) = none
      ∧ temporaryTransactionID originalID ≠ originalID := by
  refine ⟨?_, ?_, temporaryTransactionID_ne originalID⟩
  · exact runDistanceEditSession_ne_temp originalID originalID
      (Ne.symm (temporaryTransactionID_ne originalID)) edits st
  · simp [unmountDistanceEditPage, removeTemporaryTransaction]

/-- Claim C10: revealVirtualCardDetails resolves with the response exactly
when the request resolved with a response carrying the success jsonCode; in
every other case it rejects with the localized card-details-loading-failure
message; and it never issues a Local Store patch. -/
theorem reveal_card_details_result (r : TransportResult) :
    (revealVirtualCardDetails r).2 = []
      ∧ (∀ resp : ApiResponse,
          (revealVirtualCardDetails r).1 = Except.ok resp
            ↔ r = TransportResult.resolved (some resp)
                ∧ resp.jsonCode = CONST_JSON_CODE_SUCCESS)
      ∧ (∀ m : String,
          (revealVirtualCardDetails r).1 = Except.error m
            → m = cardDetailsLoadingFailureMsg) := by
  cases r with
  | rejected => simp [revealVirtualCardDetails]
  | resolved o =>
    cases o with
    | none => simp [revealVirtualCardDetails]
    | some resp0 =>
      by_cases h : resp0.jsonCode = CONST_JSON_CODE_SUCCESS
      · refine ⟨by simp [revealVirtualCardDetails, h], ?_, ?_⟩
        · intro resp
          constructor
          · intro hok
            simp [revealVirtualCardDetails, h] at hok
            subst hok
            exact ⟨rfl, h⟩
          · intro ⟨hr, _⟩
            cases hr
            simp [revealVirtualCardDetails, h]
        · intro m hm
          simp [revealVirtualCardDetails, h] at hm
      · refine ⟨by simp [revealVirtualCardDetails, h], ?_, ?_⟩
        · intro resp
          constructor
          · intro hok
            simp [revealVirtualCardDetails, h] at hok
          · intro ⟨hr, hcode⟩
            cases hr
            exact absurd hcode h
        · intro m hm
          simp [revealVirtualCardDetails, h] at hm
          exact hm.symm

end Expensify
